import Mathlib

/- A shallow embedding of ipalib/frontend.py: the Param value pipeline,
   DefaultFrom derivation, Command assembly and dispatch, and the
   Object/Attribute/Method/Property linkage.  Python exceptions are
   modelled with `Except Err`, Python `None` with `Value.vnone`, and
   Python dicts of keyword arguments with association lists observed
   through `lookupKw`. -/

namespace Ipa

/-- Python runtime values as they flow through the frontend pipeline:
`None`, strings (`str`/`unicode` collapsed), ints, bools, tuples and lists. -/
inductive Value where
  | vnone
  | str (s : String)
  | int (n : Int)
  | bool (b : Bool)
  | tup (elems : List Value)
  | list (elems : List Value)

/-- Python `value is None`. -/
def Value.isNone : Value → Bool
  | .vnone => true
  | _ => false

/-- Python `value in ('', tuple(), [])`: `==` against the three empty
literals (a string equals only the empty string, a tuple only the empty
tuple, a list only the empty list; no cross-type equalities hold here). -/
def Value.inEmpty : Value → Bool
  | .str s => s == ""
  | .tup l => l.isEmpty
  | .list l => l.isEmpty
  | _ => false

/-- Python runtime type tags, the results of `type(value)`; used for the
`type(value) is ...` checks in `Param.__validate_scalar` and `Param.validate`. -/
inductive PyType where
  | noneT
  | strT
  | intT
  | boolT
  | tupleT
  | listT
  deriving DecidableEq, Repr

/-- The runtime type of a value, i.e. Python's `type(value)`. -/
def Value.pyType : Value → PyType
  | .vnone => .noneT
  | .str _ => .strT
  | .int _ => .intT
  | .bool _ => .boolT
  | .tup _ => .tupleT
  | .list _ => .listT

/-- Exceptions raised by the frontend code (ipalib error classes plus the
builtin TypeError/ValueError/KeyError/AssertionError used in frontend.py). -/
inductive Err where
  | conversionError (name : String) (value : Value) (typeName : String) (index : Option Nat)
  | ruleError (name : String) (value : Value) (error : String) (index : Option Nat)
  | requirementError (name : String)
  | typeError (value : Value) (expected : PyType)
  | pyTypeError (msg : String)
  | argumentError (msg : String)
  | valueError (msg : String)
  | keyError (key : String)
  | assertionError

/-- Modelled from the spec: ipalib/errors.py is not under src/, so the class
hierarchy behind `except errors.ValidationError` in `Param.get_default` is
taken from the spec's error taxonomy (section 7): the validation-class errors
are ConversionError, RuleError and RequirementError; builtin TypeError /
ValueError / KeyError / AssertionError are not validation-class. -/
def Err.isValidationError : Err → Bool
  | .conversionError _ _ _ _ => true
  | .ruleError _ _ _ _ => true
  | .requirementError _ => true
  | _ => false

/-- Lookup in a keyword mapping (Python `kw[k]` / `k in kw` observations). -/
def lookupKw : List (String × Value) → String → Option Value
  | [], _ => none
  | (k, v) :: rest, key => if k = key then some v else lookupKw rest key

/-- Python `k in kw` on a keyword mapping. -/
def hasKey (kw : List (String × Value)) (key : String) : Bool :=
  (lookupKw kw key).isSome

/-- Removal of a key, the effect of Python `kw.pop(key)` on the mapping. -/
def removeKey : List (String × Value) → String → List (String × Value)
  | [], _ => []
  | (k, v) :: rest, key =>
    if k = key then removeKey rest key else (k, v) :: removeKey rest key

/-- Python `dict.update`: existing keys are overwritten in place, new keys are
appended in the update's order. -/
def dictUpdate (kw upd : List (String × Value)) : List (String × Value) :=
  kw.map (fun kv => (kv.1, (lookupKw upd kv.1).getD kv.2)) ++
    upd.filter (fun kv => !(hasKey kw kv.1))

/-- The Type capability consumed by Param (ipa_types is an external
collaborator; the fields mirror exactly the attributes frontend.py uses:
calling the type converts, `validate` is the type's own validation rule,
`type` is the expected Python runtime type and `values` the enum values). -/
structure IpaType where
  name : String
  /-- calling the type object, `self.type(value)`: converted value or None -/
  conv : Value → Value
  /-- `type_.validate`: an error description, or None for pass -/
  validate : Value → Option String
  /-- `self.type.type`: the expected runtime representation -/
  type : PyType
  values : List Value := []

/-- DefaultFrom (frontend.py lines 44-84): derives a default for one value
from other supplied values.  The callback may raise (`Except.error`). -/
structure DefaultFrom where
  callback : List Value → Except Unit Value
  keys : List String

/-- `DefaultFrom.__call__`: gather the keys (missing keys default to None);
if any is None return None, otherwise call the callback positionally,
swallowing any exception into None. -/
def DefaultFrom.call (df : DefaultFrom) (kw : List (String × Value)) : Value :=
  let vals := df.keys.map (fun k => (lookupKw kw k).getD Value.vnone)
  if vals.any Value.isNone then Value.vnone
  else
    match df.callback vals with
    | .ok v => v
    | .error _ => Value.vnone

/-- Param (frontend.py lines 87-215).  `rules` is the stored `self.rules`
(`(type_.validate,) + rules`, see `Param.make`); `normalizeCb` is the
optional normalize callback, which may raise (`Except.error`). -/
structure Param where
  name : String
  type : IpaType
  doc : String := ""
  required : Bool := false
  multivalue : Bool := false
  default : Value := Value.vnone
  default_from : Option DefaultFrom := none
  rules : List (Value → Option String) := []
  normalizeCb : Option (Value → Except Unit Value) := none

/-- `Param.__init__`: stores the arguments and prepends the type's own
validation rule to `rules` (the `check_name`/`check_type` argument checks
of plugable.py are construction-time assertions on the caller, not part of
the value pipeline). -/
def Param.make (name : String) (type : IpaType) (doc : String)
    (required : Bool) (multivalue : Bool)
    (default : Value) (default_from : Option DefaultFrom)
    (rules : List (Value → Option String))
    (normalizeCb : Option (Value → Except Unit Value)) : Param :=
  { name := name, type := type, doc := doc, required := required,
    multivalue := multivalue, default := default, default_from := default_from,
    rules := type.validate :: rules, normalizeCb := normalizeCb }

/-- `tuple(scalar(v, i) for (i, v) in enumerate(value))`: apply an indexed
scalar operation to each element in order, propagating the first exception. -/
def mapIdxM (f : Value → Nat → Except Err Value) : Nat → List Value → Except Err (List Value)
  | _, [] => .ok []
  | i, v :: vs =>
    match f v i with
    | .error e => .error e
    | .ok r =>
      match mapIdxM f (i + 1) vs with
      | .error e => .error e
      | .ok rs => .ok (r :: rs)

/-- `Param.__dispatch` (frontend.py lines 108-117): multivalue dispatch over
tuple/list inputs, promotion of a non-sequence to a one-element tuple, empty
sequence collapsing to None; scalar call with no index otherwise. -/
def Param.dispatch (p : Param) (scalar : Value → Option Nat → Except Err Value)
    (value : Value) : Except Err Value :=
  if p.multivalue then
    match value with
    | .tup l =>
      if l.isEmpty then .ok Value.vnone
      else (mapIdxM (fun v i => scalar v (some i)) 0 l).map Value.tup
    | .list l =>
      if l.isEmpty then .ok Value.vnone
      else (mapIdxM (fun v i => scalar v (some i)) 0 l).map Value.tup
    | v => (scalar v (some 0)).map (fun r => Value.tup [r])
  else scalar value none

/-- `Param.__normalize_scalar`: only basestrings are passed to the normalize
callback; any exception from the callback returns the value unchanged. -/
def Param.normalizeScalar (p : Param) (value : Value) : Value :=
  match value with
  | .str s =>
    match p.normalizeCb with
    | none => Value.str s
    | some cb =>
      match cb (Value.str s) with
      | .ok v => v
      | .error _ => Value.str s
  | v => v

/-- `Param.normalize`: identity when no normalize callback is configured,
otherwise the multivalue dispatch of the (never-raising) scalar normalize. -/
def Param.normalize (p : Param) (value : Value) : Except Err Value :=
  match p.normalizeCb with
  | none => .ok value
  | some _ => p.dispatch (fun v _ => .ok (p.normalizeScalar v)) value

/-- `Param.__convert_scalar`: None is rejected with a TypeError; a failed
type conversion raises ConversionError with the multivalue index. -/
def Param.convertScalar (p : Param) (value : Value) (index : Option Nat) : Except Err Value :=
  if value.isNone then .error (.pyTypeError "value cannot be None")
  else
    let converted := p.type.conv value
    if converted.isNone then
      .error (.conversionError p.name value p.type.name index)
    else .ok converted

/-- `Param.convert`: the multivalue dispatch of the scalar conversion. -/
def Param.convert (p : Param) (value : Value) : Except Err Value :=
  p.dispatch (fun v i => p.convertScalar v i) value

/-- The rule loop of `Param.__validate_scalar`: run the rules in order and
raise RuleError at the first rule that reports an error. -/
def runRules (pname : String) (value : Value) (index : Option Nat) :
    List (Value → Option String) → Except Err Unit
  | [] => .ok ()
  | r :: rs =>
    match r value with
    | some e => .error (.ruleError pname value e index)
    | none => runRules pname value index rs

/-- `Param.__validate_scalar`: the runtime type must match the type's
expected representation, then the rules run in order. -/
def Param.validateScalar (p : Param) (value : Value) (index : Option Nat) : Except Err Unit :=
  if value.pyType ≠ p.type.type then .error (.typeError value p.type.type)
  else runRules p.name value index p.rules

/-- The element loop of `Param.validate` for multivalue params. -/
def Param.validateList (p : Param) : Nat → List Value → Except Err Unit
  | _, [] => .ok ()
  | i, v :: vs =>
    match p.validateScalar v (some i) with
    | .error e => .error e
    | .ok _ => p.validateList (i + 1) vs

/-- `Param.validate` (frontend.py lines 172-179): for a multivalue param the
value must be a tuple (TypeError otherwise, lists included) and each element
is validated with its index; otherwise the scalar is validated once. -/
def Param.validate (p : Param) (value : Value) : Except Err Unit :=
  if p.multivalue then
    match value with
    | .tup l => p.validateList 0 l
    | v => .error (.typeError v PyType.tupleT)
  else p.validateScalar value none

/-- `Param.get_default` (frontend.py lines 181-189): if `default_from` yields
a value, try `convert(normalize(value))`; a validation-class error is
absorbed into `return None`; any other error propagates; if `default_from`
is absent or yields None, return the static default. -/
def Param.get_default (p : Param) (kw : List (String × Value)) : Except Err Value :=
  match p.default_from with
  | some df =>
    let d := df.call kw
    if d.isNone then .ok p.default
    else
      match (p.normalize d).bind p.convert with
      | .ok v => .ok v
      | .error e => if e.isValidationError then .ok Value.vnone else .error e
  | none => .ok p.default

/-- The tail of the pipeline: `value = self.convert(self.normalize(value));
self.validate(value); return value`. -/
def Param.pipelineTail (p : Param) (v : Value) : Except Err Value :=
  match (p.normalize v).bind p.convert with
  | .error e => .error e
  | .ok v3 =>
    match p.validate v3 with
    | .error e => .error e
    | .ok _ => .ok v3

/-- `Param.__call__` (frontend.py lines 196-208): empty string/tuple/list is
treated as None; None is resolved through `get_default`; a still-missing
value raises RequirementError iff required and returns None otherwise; a
present value runs through convert-after-normalize then validate. -/
def Param.call (p : Param) (value : Value) (kw : List (String × Value)) : Except Err Value :=
  let value1 := if value.inEmpty then Value.vnone else value
  match (if value1.isNone then p.get_default kw else Except.ok value1 :
      Except Err Value) with
  | .error e => .error e
  | .ok v2 =>
    if v2.isNone then
      if p.required then .error (.requirementError p.name) else .ok Value.vnone
    else p.pipelineTail v2

/-- Spec-side restatement of the `Param.__call__` pipeline, written from the
claim's words: (a) empty-string/empty-sequence input is no value; (b) no
value resolves via `get_default`; (c) a still-missing value raises
RequirementError exactly when required, else returns no value; (d) otherwise
the final value is validate applied after convert(normalize(value)). -/
def Param.callSpec (p : Param) (value : Value) (kw : List (String × Value)) : Except Err Value :=
  if value.inEmpty || value.isNone then
    match p.get_default kw with
    | .error e => .error e
    | .ok d =>
      if d.isNone then
        if p.required then .error (.requirementError p.name) else .ok Value.vnone
      else p.pipelineTail d
  else p.pipelineTail value

/-- An argument/option spec as accepted by `create_param`: a spec string or a
ready-made Param instance. -/
inductive ParamSpec where
  | str (s : String)
  | param (p : Param)

/-- Last-character test, Python `spec.endswith(c)` for a one-character suffix. -/
def strEndsWith (s : String) (c : Char) : Bool :=
  match s.toList.getLast? with
  | some c' => c' = c
  | none => false

/-- Python `spec[:-1]`. -/
def strDropLast (s : String) : String :=
  String.mk s.toList.dropLast

/-- Modelled from the spec: ipa_types.Unicode (ipa_types is not under src/)
is the generic textual type used by `create_param` — it accepts strings as
themselves and converts nothing else; its own validation rule always passes;
its runtime representation is the string type. -/
def unicodeType : IpaType :=
  { name := "Unicode",
    conv := fun v => match v with | .str s => .str s | _ => .vnone,
    validate := fun _ => none,
    type := PyType.strT }

/-- `create_param` (frontend.py lines 218-255): a Param passes through; a
spec string's trailing `?`/`*`/`+` selects required/multivalue, with a
Unicode-typed Param created under the stripped name. -/
def create_param : ParamSpec → Param
  | .param p => p
  | .str spec =>
    if strEndsWith spec '?' then
      Param.make (strDropLast spec) unicodeType "" false false Value.vnone none [] none
    else if strEndsWith spec '*' then
      Param.make (strDropLast spec) unicodeType "" false true Value.vnone none [] none
    else if strEndsWith spec '+' then
      Param.make (strDropLast spec) unicodeType "" true true Value.vnone none [] none
    else
      Param.make spec unicodeType "" true false Value.vnone none [] none

/-- `Command.__create_args` (frontend.py lines 297-314): iterate the declared
arg specs carrying the optional/multivalue flags, raising ValueError for a
required arg after an optional one or for any arg after a multivalue one. -/
def createArgsAux : Bool → Bool → List ParamSpec → Except Err (List Param)
  | _, _, [] => .ok []
  | optional, multivalue, s :: rest =>
    let arg := create_param s
    if optional && arg.required then
      .error (.valueError (arg.name ++ ": required argument after optional"))
    else if multivalue then
      .error (.valueError (arg.name ++ ": only final argument can be multivalue"))
    else
      match createArgsAux (optional || !arg.required) (multivalue || arg.multivalue) rest with
      | .error e => .error e
      | .ok ps => .ok (arg :: ps)

/-- The arg finalization as run by `Command.finalize`, starting with both
flags clear. -/
def createArgs (specs : List ParamSpec) : Except Err (List Param) :=
  createArgsAux false false specs

/-- A finalized Command: the `args` and `options` NameSpaces (sort=False, so
plain declaration-ordered lists of Params). -/
structure Command where
  args : List Param
  options : List Param

/-- `params = args + options` from `Command.finalize`. -/
def Command.params (c : Command) : List Param :=
  c.args ++ c.options

/-- `max_args` from `Command.finalize`: the number of args when there is no
final multivalue arg, unbounded (None) otherwise. -/
def Command.max_args (c : Command) : Option Nat :=
  match c.args.getLast? with
  | none => some 0
  | some last => if last.multivalue then none else some c.args.length

/-- `Command.__args_to_kw_iter` (frontend.py lines 387-398): bind positional
values to arg names by index; a multivalue arg swallows the remaining values
as one tuple; iteration stops when the values run out; the `assert not
multivalue` guard fires on any arg following a multivalue one. -/
def argsToKwIterAux (values : List Value) : Bool → Nat → List Param →
    Except Err (List (String × Value))
  | _, _, [] => .ok []
  | mv, i, arg :: rest =>
    if mv then .error .assertionError
    else if values.length > i then
      if arg.multivalue then
        match argsToKwIterAux values true (i + 1) rest with
        | .error e => .error e
        | .ok r => .ok ((arg.name, Value.tup (values.drop i)) :: r)
      else
        match argsToKwIterAux values false (i + 1) rest with
        | .error e => .error e
        | .ok r => .ok ((arg.name, values.getD i Value.vnone) :: r)
    else .ok []

/-- `Command.args_to_kw` (frontend.py lines 376-385): when `max_args` is
bounded and exceeded, raise ArgumentError with the 0/1/generic message (the
generic one interpolates `len(self.args)`); otherwise build the keyword
mapping from the positional values. -/
def Command.args_to_kw (c : Command) (values : List Value) :
    Except Err (List (String × Value)) :=
  match c.max_args with
  | some m =>
    if values.length > m then
      if m = 0 then .error (.argumentError "takes no arguments")
      else if m = 1 then .error (.argumentError "takes at most 1 argument")
      else .error (.argumentError ("takes at most " ++ toString c.args.length ++ " arguments"))
    else argsToKwIterAux values false 0 c.args
  | none => argsToKwIterAux values false 0 c.args

/-- `self.params[k]`: NameSpace lookup by name (first match). -/
def Command.findParam (c : Command) (k : String) : Option Param :=
  c.params.find? (fun p => p.name == k)

/-- `Command.normalize`: rebuild the keyword mapping with each value
normalized by its param; an undeclared key raises KeyError. -/
def Command.normalizeKw (c : Command) (kw : List (String × Value)) :
    Except Err (List (String × Value)) :=
  kw.mapM (fun kv =>
    match c.findParam kv.1 with
    | none => .error (.keyError kv.1)
    | some p =>
      match p.normalize kv.2 with
      | .error e => .error e
      | .ok v => .ok (kv.1, v))

/-- `Command.convert`: rebuild the keyword mapping with each value converted
by its param; an undeclared key raises KeyError. -/
def Command.convertKw (c : Command) (kw : List (String × Value)) :
    Except Err (List (String × Value)) :=
  kw.mapM (fun kv =>
    match c.findParam kv.1 with
    | none => .error (.keyError kv.1)
    | some p =>
      match p.convert kv.2 with
      | .error e => .error e
      | .ok v => .ok (kv.1, v))

/-- `Command.__get_default_iter` / `Command.get_default` (frontend.py lines
330-336): one `(name, get_default(**kw))` pair for every declared param whose
name is absent from the mapping, in declaration order. -/
def Command.getDefaultPairs (c : Command) (kw : List (String × Value)) :
    Except Err (List (String × Value)) :=
  (c.params.filter (fun p => !(hasKey kw p.name))).mapM (fun p =>
    match p.get_default kw with
    | .error e => .error e
    | .ok d => .ok (p.name, d))

/-- The loop of `Command.validate` (frontend.py lines 338-344). -/
def validateParams (kw : List (String × Value)) : List Param → Except Err Unit
  | [] => .ok ()
  | p :: ps =>
    let value := (lookupKw kw p.name).getD Value.vnone
    if !value.isNone then
      match p.validate value with
      | .error e => .error e
      | .ok _ => validateParams kw ps
    else if p.required then .error (.requirementError p.name)
    else validateParams kw ps

/-- `Command.validate`: every present value is validated by its param; a
missing required param raises RequirementError. -/
def Command.validateKw (c : Command) (kw : List (String × Value)) : Except Err Unit :=
  validateParams kw c.params

/-- `tuple(kw.pop(name) for name in self.args)`: pop each arg name in
declared order (KeyError when absent), returning the positional tuple and
the remaining keyword mapping. -/
def popArgs : List String → List (String × Value) →
    Except Err (List Value × List (String × Value))
  | [], kw => .ok ([], kw)
  | n :: ns, kw =>
    match lookupKw kw n with
    | none => .error (.keyError n)
    | some v =>
      match popArgs ns (removeKey kw n) with
      | .error e => .error e
      | .ok (vs, kw') => .ok (v :: vs, kw')

/-- The first half of `Command.__call__` (frontend.py lines 356-366): merge
positional values into the keyword mapping (their key sets must be disjoint),
then normalize and convert every present value. -/
def Command.preDefault (c : Command) (pos : List Value) (kw0 : List (String × Value)) :
    Except Err (List (String × Value)) :=
  match
    (if pos.length > 0 then
      match c.args_to_kw pos with
      | .error e => .error e
      | .ok argKw =>
        if argKw.any (fun kv => hasKey kw0 kv.1) then .error Err.assertionError
        else .ok (dictUpdate kw0 argKw)
    else .ok kw0 : Except Err (List (String × Value))) with
  | .error e => .error e
  | .ok kw1 =>
    match c.normalizeKw kw1 with
    | .error e => .error e
    | .ok kw2 => c.convertKw kw2

/-- `Command.__call__`: after normalize/convert, fill defaults for the
missing params, validate the assembled mapping, then split it into the
declared positional slice plus the remaining keywords — the pair handed to
`run`. -/
def Command.call (c : Command) (pos : List Value) (kw0 : List (String × Value)) :
    Except Err (List Value × List (String × Value)) :=
  match c.preDefault pos kw0 with
  | .error e => .error e
  | .ok kw =>
    match c.getDefaultPairs kw with
    | .error e => .error e
    | .ok defs =>
      let kwF := dictUpdate kw defs
      match c.validateKw kwF with
      | .error e => .error e
      | .ok _ => popArgs (c.args.map (fun a => a.name)) kwF

/-- The two execution strategies of `Command.run`. -/
inductive Strategy where
  | execute
  | forward
  deriving DecidableEq, Repr

/-- The memoization state of `Command.run`: `object.__setattr__(self, 'run',
target)` rebinds the instance's `run` attribute, so the state is the
currently bound target, absent before the first call. -/
structure RunState where
  runBinding : Option Strategy
  deriving DecidableEq, Repr

/-- One call of `Command.run` (frontend.py lines 368-374): a previously bound
target is invoked directly (the instance attribute shadows the method); the
first call reads the server-context flag, picks execute or forward, and
stores the choice on the instance. -/
def runStep (st : RunState) (inServerContext : Bool) : Strategy × RunState :=
  match st.runBinding with
  | some t => (t, st)
  | none =>
    let t := if inServerContext then Strategy.execute else Strategy.forward
    (t, { runBinding := some t })

/-- A Property as seen from `Method.get_options` through the Object's
Property namespace: each entry carries its synthesized `param`. -/
structure PropProxy where
  param : Param

/-- The `get_key` closure of `Method.get_options`: 0 for required with no
derivation rule, 1 for required with one, 2 for not required. -/
def propKey (p : PropProxy) : Nat :=
  if p.param.required then (if p.param.default_from.isNone then 0 else 1) else 2

/-- A stable insertion into a key-sorted list: the new element goes before
the first element of key not below its own, so earlier-inserted equal keys
stay in front. -/
def insertByKey {α : Type} (key : α → Nat) (x : α) : List α → List α
  | [] => [x]
  | y :: ys => if key x ≤ key y then x :: y :: ys else y :: insertByKey key x ys

/-- Python `sorted(iterable, key=...)`: a stable sort by key (Python's sort
is stable; any stable sort has the same input/output behaviour, modelled
here as stable insertion sort). -/
def sortByKey {α : Type} (key : α → Nat) : List α → List α
  | [] => []
  | x :: xs => insertByKey key x (sortByKey key xs)

/-- The Object as seen from a linked Method: its Property namespace, which is
None before `set_api` has run. -/
structure ObjModel where
  propertyNs : Option (List PropProxy)

/-- The state of a Method relevant to `get_options`: its own declared
options and its (possibly still unlinked) Object. -/
structure MethodModel where
  takesOptions : List ParamSpec
  obj : Option ObjModel

/-- `Method.get_options` (frontend.py lines 491-502): the Method's own
declared options, then — when the Object and its Property namespace are
linked — each Property's synthesized param, stably sorted by `get_key`. -/
def MethodModel.getOptions (m : MethodModel) : List ParamSpec :=
  m.takesOptions ++
    (match m.obj with
     | none => []
     | some o =>
       match o.propertyNs with
       | none => []
       | some props => (sortByKey propKey props).map (fun p => ParamSpec.param p.param))

/-- `[a-z]` of the Attribute naming regex. -/
def isLowerAlpha (c : Char) : Bool :=
  'a' ≤ c && c ≤ 'z'

/-- `[a-z0-9]` of the Attribute naming regex. -/
def isLowerDigit (c : Char) : Bool :=
  isLowerAlpha c || ('0' ≤ c && c ≤ '9')

/-- One part of the naming convention, `[a-z][a-z0-9]+`: a lowercase letter
followed by at least one lowercase letter or digit. -/
def partMatch : List Char → Bool
  | [] => false
  | c :: rest => isLowerAlpha c && !rest.isEmpty && rest.all isLowerDigit

/-- The match of `^([a-z][a-z0-9]+)_([a-z][a-z0-9]+)$` against a class name
(as a character list).  Neither character class contains the underscore, so
the first group is exactly the maximal leading `[a-z][a-z0-9]+` run, which
must be followed by `_` and a full second part reaching the end. -/
def attrMatch : List Char → Option (List Char × List Char)
  | [] => none
  | c :: rest =>
    let g1 := rest.takeWhile isLowerDigit
    match rest.dropWhile isLowerDigit with
    | d :: second =>
      if isLowerAlpha c && !g1.isEmpty && (d = '_') && partMatch second then
        some (c :: g1, second)
      else none
    | [] => none

/-- `Attribute.__init__` (frontend.py lines 454-461): parse the class name
into `(obj_name, attr_name)`; a failed match is the fatal `assert m`
(None result). -/
def attrInit (name : String) : Option (String × String) :=
  match attrMatch name.toList with
  | some (o, a) => some (String.mk o, String.mk a)
  | none => none

/-- A sample derivation rule for the C3 witness: initials from first+last. -/
def initialsCallback : List Value → Except Unit Value
  | [Value.str f, Value.str l] => .ok (Value.str (String.mk (f.toList.take 1 ++ l.toList.take 1)))
  | _ => .error ()

/-- A sample DefaultFrom for the C3 witness. -/
def initialsDf : DefaultFrom :=
  { callback := initialsCallback, keys := ["first", "last"] }

/-- A derivation rule whose derived value fails conversion, for C2. -/
def intFiveCallback : List Value → Except Unit Value := fun _ => .ok (Value.int 5)

/-- A Param with a static default and a default_from whose derived value
fails Unicode conversion, for C2. -/
def p2 : Param :=
  Param.make "p2" unicodeType "" false false (Value.str "fallback")
    (some { callback := intFiveCallback, keys := ["k"] }) [] none

/-- A plain optional Unicode param with static default "dd", for C1. -/
def p1 : Param :=
  Param.make "p1" unicodeType "" false false (Value.str "dd") none [] none

/-- A multivalue Unicode param with no extra rules, for C6. -/
def p6 : Param :=
  Param.make "p6" unicodeType "" false true Value.vnone none [] none

/-- Claim-side predicate: no required argument follows an optional one. -/
def noReqAfterOpt : List Param → Bool
  | [] => true
  | a :: rest => (a.required || rest.all (fun b => !b.required)) && noReqAfterOpt rest

/-- Claim-side predicate: only the final argument may be multivalue. -/
def mvOnlyFinal : List Param → Bool
  | [] => true
  | a :: rest => (!a.multivalue || rest.isEmpty) && mvOnlyFinal rest

/-- A required scalar Unicode arg named "a", for the C5 witness. -/
def aReq : Param :=
  Param.make "a" unicodeType "" true false Value.vnone none [] none

/-- A finalized one-arg command, for the C5 witness. -/
def c1 : Command :=
  { args := [aReq], options := [] }

/-- An optional scalar Unicode arg named "a" with no default, for C10. -/
def aOpt : Param :=
  Param.make "a" unicodeType "" false false Value.vnone none [] none

/-- A finalized command with one optional arg and no options, for C10. -/
def c2 : Command :=
  { args := [aOpt], options := [] }

/- ------------------------------------------------------------------ -/
/- Helper lemmas                                                       -/
/- ------------------------------------------------------------------ -/

@[simp]
theorem Value.isNone_iff (v : Value) : v.isNone = true ↔ v = Value.vnone := by
  cases v <;> simp [Value.isNone]

theorem Value.isNone_false_iff (v : Value) : v.isNone = false ↔ v ≠ Value.vnone := by
  cases v <;> simp [Value.isNone]

/- ------------------------------------------------------------------ -/
/- C3: DefaultFrom.__call__                                            -/
/- ------------------------------------------------------------------ -/

/-- C3: `DefaultFrom.__call__` returns no value without invoking the callback
(for every callback) whenever some key is missing from the mapping or mapped
to none; when every key is present and non-none it calls the callback
positionally with the key values in declared order and returns its result,
with any callback exception swallowed into no value. -/
theorem C3_default_from_call (df : DefaultFrom) (kw : List (String × Value)) :
    ((∃ k, k ∈ df.keys ∧ (lookupKw kw k).getD Value.vnone = Value.vnone) →
      ∀ cb, DefaultFrom.call { callback := cb, keys := df.keys } kw = Value.vnone) ∧
    ((∀ k ∈ df.keys, (lookupKw kw k).getD Value.vnone ≠ Value.vnone) →
      DefaultFrom.call df kw =
        match df.callback (df.keys.map (fun k => (lookupKw kw k).getD Value.vnone)) with
        | .ok v => v
        | .error _ => Value.vnone) := by
  constructor
  · rintro ⟨k, hk, hv⟩ cb
    have hmem : Value.vnone ∈ df.keys.map (fun k => (lookupKw kw k).getD Value.vnone) :=
      List.mem_map.mpr ⟨k, hk, hv⟩
    have hany : (df.keys.map (fun k => (lookupKw kw k).getD Value.vnone)).any Value.isNone = true :=
      List.any_eq_true.mpr ⟨Value.vnone, hmem, rfl⟩
    simp [DefaultFrom.call, hany]
  · intro h
    have hany : (df.keys.map (fun k => (lookupKw kw k).getD Value.vnone)).any Value.isNone = false := by
      rw [List.any_eq_false]
      intro x hx
      obtain ⟨k, hk, rfl⟩ := List.mem_map.mp hx
      simp only [Value.isNone_iff]
      exact h k hk
    simp [DefaultFrom.call, hany]

/-- C3 witness: with both keys present the callback result is returned; with
a key missing the result is no value for any callback. -/
theorem C3_witness :
    DefaultFrom.call initialsDf [("first", Value.str "John"), ("last", Value.str "Doe")] =
      Value.str "JD" ∧
    DefaultFrom.call { callback := initialsCallback, keys := initialsDf.keys }
      [("first", Value.str "John")] = Value.vnone := by
  constructor
  · have hk : ∀ k ∈ initialsDf.keys,
        (lookupKw [("first", Value.str "John"), ("last", Value.str "Doe")] k).getD
          Value.vnone ≠ Value.vnone := by
      intro k hkk
      have hor : k = "first" ∨ k = "last" := by simpa [initialsDf] using hkk
      rcases hor with rfl | rfl <;> exact fun h => nomatch h
    exact ((C3_default_from_call initialsDf
      [("first", Value.str "John"), ("last", Value.str "Doe")]).2 hk).trans rfl
  · exact (C3_default_from_call initialsDf [("first", Value.str "John")]).1
      ⟨"last", List.Mem.tail _ (List.Mem.head _), rfl⟩ initialsCallback

/- ------------------------------------------------------------------ -/
/- C2: Param.get_default                                               -/
/- ------------------------------------------------------------------ -/

/-- C2 counterexample: the derived value (int 5) fails Unicode conversion
with a validation-class ConversionError, and `get_default` then returns no
value (None), not the static default "fallback" the claim promises. -/
theorem C2_counterexample :
    p2.get_default [("k", Value.str "x")] = Except.ok Value.vnone ∧
    p2.default = Value.str "fallback" := by
  exact ⟨rfl, rfl⟩

/-- C2 (amended): if `default_from` is absent or yields nothing,
`get_default` returns the static default; if the derived value's
`convert(normalize(...))` succeeds its result is returned; if it raises a
validation-class error `get_default` returns no value (None) — not the
static default — and any other error propagates. -/
theorem C2_get_default_characterization (p : Param) (kw : List (String × Value)) :
    (p.default_from = none → p.get_default kw = .ok p.default) ∧
    (∀ df, p.default_from = some df → df.call kw = Value.vnone →
      p.get_default kw = .ok p.default) ∧
    (∀ df, p.default_from = some df → df.call kw ≠ Value.vnone →
      (∀ v, (p.normalize (df.call kw)).bind p.convert = .ok v → p.get_default kw = .ok v) ∧
      (∀ e, (p.normalize (df.call kw)).bind p.convert = .error e →
        (e.isValidationError = true → p.get_default kw = .ok Value.vnone) ∧
        (e.isValidationError = false → p.get_default kw = .error e))) := by
  refine ⟨?_, ?_, ?_⟩
  · intro h
    simp [Param.get_default, h]
  · intro df hdf hnone
    simp [Param.get_default, hdf, hnone, Value.isNone]
  · intro df hdf hne
    have hfalse : (df.call kw).isNone = false := (Value.isNone_false_iff _).mpr hne
    constructor
    · intro v hv
      simp [Param.get_default, hdf, hfalse, hv]
    · intro e he
      constructor <;> intro hcl <;> simp [Param.get_default, hdf, hfalse, he, hcl]

/-- C2 witness for the amended claim: on p2 the derived value fails
conversion with a validation-class error and get_default yields no value;
on p1-style params without default_from the static default is returned. -/
theorem C2_witness :
    p2.get_default [("k", Value.str "x")] = Except.ok Value.vnone := by
  have h := (C2_get_default_characterization p2 [("k", Value.str "x")]).2.2
    { callback := intFiveCallback, keys := ["k"] } rfl (by intro hx; exact nomatch hx)
  have h2 := (h.2 (Err.conversionError "p2" (Value.int 5) "Unicode" none) rfl).1 rfl
  exact h2

/- ------------------------------------------------------------------ -/
/- C8: Command.run memoization                                         -/
/- ------------------------------------------------------------------ -/

/-- C8: the first `run` call selects execute/forward from the server-context
flag observed at that moment; the choice is stored, the second call returns
the same strategy and leaves the state unchanged whatever the flag now says,
and any call on an instance with a stored binding dispatches to it directly. -/
theorem C8_run_memoization (b1 b2 : Bool) :
    (runStep { runBinding := none } b1).1 =
      (if b1 then Strategy.execute else Strategy.forward) ∧
    runStep (runStep { runBinding := none } b1).2 b2 =
      ((runStep { runBinding := none } b1).1, (runStep { runBinding := none } b1).2) ∧
    (∀ (st : RunState) (t : Strategy), st.runBinding = some t → runStep st b2 = (t, st)) := by
  refine ⟨?_, ?_, ?_⟩
  · cases b1 <;> rfl
  · cases b1 <;> cases b2 <;> rfl
  · intro st t h
    unfold runStep
    rw [h]

/-- C8 witness: a later call on an instance whose binding is already stored
returns that binding and does not change the state. -/
theorem C8_witness :
    runStep { runBinding := some Strategy.forward } false =
      (Strategy.forward, { runBinding := some Strategy.forward }) :=
  (C8_run_memoization true false).2.2 { runBinding := some Strategy.forward }
    Strategy.forward rfl

/- ------------------------------------------------------------------ -/
/- C1: Param.__call__                                                  -/
/- ------------------------------------------------------------------ -/

/-- C1: `Param.__call__` behaves exactly as the spec pipeline `callSpec`
describes — empty string/tuple/list input is no value, no value resolves via
`get_default`, a still-missing value raises RequirementError exactly when
required and returns no value otherwise, and a present value is returned as
validate-after-convert-after-normalize; in particular a non-multivalue param
called on None with no context yields its (well-typed) static default when
present and otherwise raises RequirementError iff required. -/
theorem C1_param_call (p : Param) (value : Value) (kw : List (String × Value)) :
    p.call value kw = p.callSpec value kw ∧
    (p.multivalue = false →
     (p.default_from = none ∨ ∃ df, p.default_from = some df ∧ df.keys ≠ []) →
     ((p.default = Value.vnone →
        p.call Value.vnone [] =
          (if p.required then Except.error (Err.requirementError p.name)
           else Except.ok Value.vnone)) ∧
      (p.normalize p.default = Except.ok p.default →
       p.convert p.default = Except.ok p.default →
       p.validate p.default = Except.ok () →
       p.call Value.vnone [] = Except.ok p.default))) := by
  constructor
  · cases hv : value.inEmpty
    · cases hn : value.isNone
      · simp [Param.call, Param.callSpec, hv, hn]
      · simp [Param.call, Param.callSpec, hv, hn]
    · simp [Param.call, Param.callSpec, hv, Value.isNone]
  · intro hmv hdf
    have hgd : p.get_default [] = .ok p.default := by
      rcases hdf with h | ⟨df, h, hkeys⟩
      · simp [Param.get_default, h]
      · have hcall : df.call [] = Value.vnone := by
          rcases hke : df.keys with _ | ⟨a, as⟩
          · exact absurd hke hkeys
          · simp [DefaultFrom.call, hke, lookupKw, Value.isNone]
        simp [Param.get_default, h, hcall, Value.isNone]
    constructor
    · intro hd
      simp [Param.call, Value.inEmpty, Value.isNone, hgd, hd]
    · intro hn hc hval
      have hdne : p.default ≠ Value.vnone := by
        intro hdd
        rw [hdd] at hc
        simp [Param.convert, Param.dispatch, hmv, Param.convertScalar, Value.isNone] at hc
      simp [Param.call, Value.inEmpty, Value.isNone_iff, hgd, hdne, Param.pipelineTail,
        hn, hc, hval, Except.bind]

/-- C1 witness: on a concrete optional param with default "dd", `p(None)`
yields the default, and the pipeline agrees with its spec restatement on a
present value. -/
theorem C1_witness :
    p1.call Value.vnone [] = Except.ok (Value.str "dd") ∧
    p1.call (Value.str "x") [] = p1.callSpec (Value.str "x") [] := by
  refine ⟨?_, (C1_param_call p1 (Value.str "x") []).1⟩
  exact ((C1_param_call p1 Value.vnone []).2 rfl (Or.inl rfl)).2 rfl rfl rfl

/- ------------------------------------------------------------------ -/
/- C6: multivalue dispatch of normalize/convert/validate               -/
/- ------------------------------------------------------------------ -/

@[simp]
theorem exceptBind_ok {ε α β : Type} (a : α) (f : α → Except ε β) :
    (Except.ok a >>= f) = f a := rfl

@[simp]
theorem exceptBind_error {ε α β : Type} (e : ε) (f : α → Except ε β) :
    ((Except.error e : Except ε α) >>= f) = Except.error e := rfl

@[simp]
theorem exceptPure_eq {ε α : Type} (a : α) : (pure a : Except ε α) = Except.ok a := rfl

@[simp]
theorem exceptMap_ok {ε α β : Type} (f : α → β) (a : α) :
    Except.map f (Except.ok a : Except ε α) = Except.ok (f a) := rfl

@[simp]
theorem exceptMap_error {ε α β : Type} (f : α → β) (e : ε) :
    Except.map f (Except.error e : Except ε α) = Except.error e := rfl

/-- The indexed element loop equals mapM over the index-carrying enumeration. -/
theorem mapIdxM_eq_enumFrom (f : Value → Nat → Except Err Value) :
    ∀ (l : List Value) (i : Nat),
      mapIdxM f i l = (l.enumFrom i).mapM (fun q => f q.2 q.1) := by
  intro l
  induction l with
  | nil => intro i; rfl
  | cons v vs ih =>
    intro i
    show mapIdxM f i (v :: vs) = ((i, v) :: vs.enumFrom (i + 1)).mapM (fun q => f q.2 q.1)
    rw [List.mapM_cons]
    cases hv : f v i
    · simp [mapIdxM, hv]
    · simp only [mapIdxM, hv, ih (i + 1), exceptBind_ok]
      cases hrest : (vs.enumFrom (i + 1)).mapM (fun q => f q.2 q.1) <;> simp [hrest]

/-- An always-succeeding indexed loop is just List.map. -/
theorem mapIdxM_pure (g : Value → Value) : ∀ (l : List Value) (i : Nat),
    mapIdxM (fun v _ => Except.ok (g v)) i l = Except.ok (l.map g) := by
  intro l
  induction l with
  | nil => intro i; rfl
  | cons v vs ih => intro i; simp [mapIdxM, ih]

/-- The element loop of validate equals mapM over the enumeration (same
success and first-error behaviour). -/
theorem validateList_eq_mapM (p : Param) :
    ∀ (l : List Value) (i : Nat),
      p.validateList i l =
        ((l.enumFrom i).mapM (fun q => p.validateScalar q.2 (some q.1))).map (fun _ => ()) := by
  intro l
  induction l with
  | nil => intro i; rfl
  | cons v vs ih =>
    intro i
    show p.validateList i (v :: vs) =
      (((i, v) :: vs.enumFrom (i + 1)).mapM (fun q => p.validateScalar q.2 (some q.1))).map
        (fun _ => ())
    rw [List.mapM_cons]
    cases hv : p.validateScalar v (some i)
    · simp [Param.validateList, hv]
    · simp only [Param.validateList, hv, ih (i + 1), exceptBind_ok]
      cases hrest : (vs.enumFrom (i + 1)).mapM (fun q => p.validateScalar q.2 (some q.1)) <;>
        simp [hrest, Except.map]

/-- C6 counterexample: for a multivalue param, `validate` does not follow
the shared dispatch rule — a non-sequence input is not promoted to a
single-element sequence: the bare scalar "x" raises TypeError even though
the same scalar validates fine as an element (and as a one-element tuple). -/
theorem C6_counterexample :
    p6.validate (Value.str "x") =
      Except.error (Err.typeError (Value.str "x") PyType.tupleT) ∧
    p6.validateScalar (Value.str "x") (some 0) = Except.ok () ∧
    p6.validate (Value.tup [Value.str "x"]) = Except.ok () := by
  exact ⟨rfl, rfl, rfl⟩

/-- C6 (amended): `convert` (always) and `normalize` (when a normalize
callback is configured) follow the multivalue dispatch rule — sequence
elements are processed independently carrying their index into a fixed-order
tuple, a non-sequence is promoted to a one-element tuple, an empty sequence
is no value; `normalize` without a callback returns the value unchanged; and
`validate` of a multivalue param instead requires a tuple (TypeError for any
non-tuple, lists included), validating each element with its index; with
multivalue false each operation runs exactly once over the scalar. -/
theorem C6_multivalue_dispatch (p : Param) :
    (p.multivalue = true →
      (∀ l, l ≠ [] → p.convert (Value.tup l) =
        (l.enum.mapM (fun q => p.convertScalar q.2 (some q.1))).map Value.tup) ∧
      (∀ l, l ≠ [] → p.convert (Value.list l) =
        (l.enum.mapM (fun q => p.convertScalar q.2 (some q.1))).map Value.tup) ∧
      (p.convert (Value.tup []) = .ok Value.vnone ∧
       p.convert (Value.list []) = .ok Value.vnone) ∧
      (∀ v, v.pyType ≠ PyType.tupleT → v.pyType ≠ PyType.listT →
        p.convert v = (p.convertScalar v (some 0)).map (fun r => Value.tup [r])) ∧
      (∀ l, p.validate (Value.tup l) =
        (l.enum.mapM (fun q => p.validateScalar q.2 (some q.1))).map (fun _ => ())) ∧
      (∀ v, v.pyType ≠ PyType.tupleT →
        p.validate v = .error (.typeError v PyType.tupleT))) ∧
    (p.multivalue = false →
      (∀ v, p.convert v = p.convertScalar v none) ∧
      (∀ v, p.validate v = p.validateScalar v none) ∧
      (∀ cb v, p.normalizeCb = some cb → p.normalize v = .ok (p.normalizeScalar v))) ∧
    (∀ cb, p.normalizeCb = some cb → p.multivalue = true →
      (∀ l, l ≠ [] → p.normalize (Value.tup l) = .ok (Value.tup (l.map p.normalizeScalar))) ∧
      (∀ l, l ≠ [] → p.normalize (Value.list l) = .ok (Value.tup (l.map p.normalizeScalar))) ∧
      (p.normalize (Value.tup []) = .ok Value.vnone ∧
       p.normalize (Value.list []) = .ok Value.vnone) ∧
      (∀ v, v.pyType ≠ PyType.tupleT → v.pyType ≠ PyType.listT →
        p.normalize v = .ok (Value.tup [p.normalizeScalar v]))) ∧
    (p.normalizeCb = none → ∀ v, p.normalize v = .ok v) := by
  refine ⟨?_, ?_, ?_, ?_⟩
  · intro hmv
    refine ⟨?_, ?_, ⟨?_, ?_⟩, ?_, ?_, ?_⟩
    · intro l hl
      have hne : l.isEmpty = false := by simpa [List.isEmpty_iff] using hl
      simp [Param.convert, Param.dispatch, hmv, hne, mapIdxM_eq_enumFrom, List.enum]
    · intro l hl
      have hne : l.isEmpty = false := by simpa [List.isEmpty_iff] using hl
      simp [Param.convert, Param.dispatch, hmv, hne, mapIdxM_eq_enumFrom, List.enum]
    · simp [Param.convert, Param.dispatch, hmv]
    · simp [Param.convert, Param.dispatch, hmv]
    · intro v h1 h2
      cases v <;> simp_all [Param.convert, Param.dispatch, Value.pyType]
    · intro l
      simp [Param.validate, hmv, validateList_eq_mapM, List.enum]
    · intro v h1
      cases v <;> simp_all [Param.validate, Value.pyType]
  · intro hmv
    refine ⟨?_, ?_, ?_⟩
    · intro v; simp [Param.convert, Param.dispatch, hmv]
    · intro v; simp [Param.validate, hmv]
    · intro cb v hcb; simp [Param.normalize, hcb, Param.dispatch, hmv]
  · intro cb hcb hmv
    refine ⟨?_, ?_, ⟨?_, ?_⟩, ?_⟩
    · intro l hl
      have hne : l.isEmpty = false := by simpa [List.isEmpty_iff] using hl
      simp [Param.normalize, hcb, Param.dispatch, hmv, hne, mapIdxM_pure]
    · intro l hl
      have hne : l.isEmpty = false := by simpa [List.isEmpty_iff] using hl
      simp [Param.normalize, hcb, Param.dispatch, hmv, hne, mapIdxM_pure]
    · simp [Param.normalize, hcb, Param.dispatch, hmv]
    · simp [Param.normalize, hcb, Param.dispatch, hmv]
    · intro v h1 h2
      cases v <;> simp_all [Param.normalize, hcb, Param.dispatch, Value.pyType]
  · intro hcb v
    simp [Param.normalize, hcb]

/-- C6 witness for the amended claim: on a concrete multivalue param a list
input converts elementwise into a fixed-order tuple, and the empty tuple
validates vacuously. -/
theorem C6_witness :
    p6.convert (Value.list [Value.str "a", Value.str "b"]) =
      Except.ok (Value.tup [Value.str "a", Value.str "b"]) ∧
    p6.validate (Value.tup []) = Except.ok () := by
  constructor
  · have h := ((C6_multivalue_dispatch p6).1 rfl).2.1 [Value.str "a", Value.str "b"]
      (fun h => nomatch h)
    exact h.trans rfl
  · have h := ((C6_multivalue_dispatch p6).1 rfl).2.2.2.2.1 []
    exact h.trans rfl

/- ------------------------------------------------------------------ -/
/- C4: Command.__create_args ordering invariants                       -/
/- ------------------------------------------------------------------ -/

theorem createArgsAux_error : ∀ (specs : List ParamSpec) (opt mv : Bool) (e : Err),
    createArgsAux opt mv specs = .error e → ∃ msg, e = Err.valueError msg := by
  intro specs
  induction specs with
  | nil => intro opt mv e h; exact nomatch h
  | cons s rest ih =>
    intro opt mv e h
    by_cases h1 : (opt && (create_param s).required) = true
    · simp only [createArgsAux, h1, if_true] at h
      exact ⟨_, (Except.error.inj h).symm⟩
    · by_cases h2 : mv = true
      · simp only [createArgsAux, h1, if_false, h2, if_true, Bool.false_eq_true] at h
        exact ⟨_, (Except.error.inj h).symm⟩
      · rw [Bool.not_eq_true] at h1 h2
        subst h2
        simp only [createArgsAux, h1, Bool.false_eq_true, if_false, Bool.false_or] at h
        cases hrec : createArgsAux (opt || !(create_param s).required)
            ((create_param s).multivalue) rest with
        | error e' =>
          rw [hrec] at h
          obtain ⟨msg, rfl⟩ := ih _ _ e' hrec
          exact ⟨msg, (Except.error.inj h).symm⟩
        | ok ps =>
          rw [hrec] at h
          exact nomatch h

set_option maxHeartbeats 1000000 in
theorem createArgsAux_ok_iff : ∀ (specs : List ParamSpec) (opt mv : Bool),
    (∃ ps, createArgsAux opt mv specs = Except.ok ps) ↔
      ((mv = true → specs = []) ∧
       (opt = true → (specs.map create_param).all (fun a => !a.required) = true) ∧
       noReqAfterOpt (specs.map create_param) = true ∧
       mvOnlyFinal (specs.map create_param) = true) := by
  intro specs
  induction specs with
  | nil =>
    intro opt mv
    simp [createArgsAux, noReqAfterOpt, mvOnlyFinal]
  | cons s rest ih =>
    intro opt mv
    have hstep : (∃ ps, createArgsAux opt mv (s :: rest) = .ok ps) ↔
        ((opt && (create_param s).required) = false ∧ mv = false ∧
         ∃ ps', createArgsAux (opt || !(create_param s).required)
           ((create_param s).multivalue) rest = .ok ps') := by
      constructor
      · rintro ⟨ps, hps⟩
        by_cases h1 : (opt && (create_param s).required) = true
        · simp only [createArgsAux, h1, if_true] at hps
          exact nomatch hps
        · by_cases h2 : mv = true
          · simp only [createArgsAux, h1, if_false, h2, if_true, Bool.false_eq_true] at hps
            exact nomatch hps
          · rw [Bool.not_eq_true] at h1 h2
            subst h2
            refine ⟨h1, rfl, ?_⟩
            simp only [createArgsAux, h1, Bool.false_eq_true, if_false, Bool.false_or] at hps
            cases hrec : createArgsAux (opt || !(create_param s).required)
                ((create_param s).multivalue) rest with
            | error e' => rw [hrec] at hps; exact nomatch hps
            | ok ps' => exact ⟨ps', rfl⟩
      · rintro ⟨h1, h2, ps', hps'⟩
        subst h2
        refine ⟨create_param s :: ps', ?_⟩
        simp [createArgsAux, h1, hps']
    rw [hstep, ih]
    simp only [List.map_cons, noReqAfterOpt, mvOnlyFinal, List.all_cons, Bool.and_eq_true,
      Bool.or_eq_true, Bool.not_eq_true']
    cases hopt : opt <;> cases hmv2 : mv <;>
      cases hr : (create_param s).required <;> cases hm : (create_param s).multivalue <;>
        (simp_all [List.isEmpty_iff, List.map_eq_nil_iff]; try tauto)

/-- C4: finalizing the declared arg specs succeeds exactly when no required
arg follows an optional one and no non-final arg is multivalue; a violation
fails with a ValueError-class configuration error at finalization time. -/
theorem C4_create_args (specs : List ParamSpec) :
    ((∃ ps, createArgs specs = .ok ps) ↔
      (noReqAfterOpt (specs.map create_param) = true ∧
       mvOnlyFinal (specs.map create_param) = true)) ∧
    (¬(noReqAfterOpt (specs.map create_param) = true ∧
       mvOnlyFinal (specs.map create_param) = true) →
      ∃ msg, createArgs specs = .error (.valueError msg)) := by
  have hiff := createArgsAux_ok_iff specs false false
  constructor
  · rw [createArgs, hiff]
    simp
  · intro hbad
    cases h : createArgs specs with
    | ok ps =>
      exact absurd (by simpa using hiff.mp ⟨ps, h⟩) hbad
    | error e =>
      obtain ⟨msg, rfl⟩ := createArgsAux_error specs false false e h
      exact ⟨msg, rfl⟩

/-- C4 witness: `['a', 'b?']` finalizes, while `['a?', 'b']` and
`['a*', 'b']` fail with a ValueError-class error. -/
theorem C4_witness :
    (∃ ps, createArgs [ParamSpec.str "a", ParamSpec.str "b?"] = .ok ps) ∧
    (∃ msg, createArgs [ParamSpec.str "a?", ParamSpec.str "b"] =
      .error (.valueError msg)) ∧
    (∃ msg, createArgs [ParamSpec.str "a*", ParamSpec.str "b"] =
      .error (.valueError msg)) :=
  ⟨(C4_create_args [ParamSpec.str "a", ParamSpec.str "b?"]).1.mpr (by decide),
   (C4_create_args [ParamSpec.str "a?", ParamSpec.str "b"]).2 (by decide),
   (C4_create_args [ParamSpec.str "a*", ParamSpec.str "b"]).2 (by decide)⟩

/- ------------------------------------------------------------------ -/
/- C5: Command.args_to_kw                                              -/
/- ------------------------------------------------------------------ -/

theorem zip_cons_drop (a : Param) (rest : List Param) (values : List Value) (i : Nat)
    (h : i < values.length) :
    (a :: rest).zip (values.drop i) = (a, values[i]) :: rest.zip (values.drop (i + 1)) := by
  rw [List.drop_eq_getElem_cons h, List.zip_cons_cons]

theorem iter_no_mv (values : List Value) : ∀ (args : List Param) (i : Nat),
    args.all (fun a => !a.multivalue) = true →
    argsToKwIterAux values false i args =
      .ok ((args.zip (values.drop i)).map (fun pv => (pv.1.name, pv.2))) := by
  intro args
  induction args with
  | nil => intro i _; simp [argsToKwIterAux]
  | cons a rest ih =>
    intro i h
    simp only [List.all_cons, Bool.and_eq_true, Bool.not_eq_true'] at h
    by_cases hlen : values.length > i
    · have hzip := zip_cons_drop a rest values i (by omega)
      simp [argsToKwIterAux, hlen, h.1, ih (i + 1) h.2, hzip]
    · have hnil : values.drop i = [] := List.drop_eq_nil_of_le (by omega)
      simp [argsToKwIterAux, hlen, hnil]

theorem iter_mv_last (values : List Value) : ∀ (pre : List Param) (i : Nat) (last : Param),
    pre.all (fun a => !a.multivalue) = true → last.multivalue = true →
    values.length > i + pre.length →
    argsToKwIterAux values false i (pre ++ [last]) =
      .ok (((pre.zip (values.drop i)).map (fun pv => (pv.1.name, pv.2))) ++
        [(last.name, Value.tup (values.drop (i + pre.length)))]) := by
  intro pre
  induction pre with
  | nil =>
    intro i last _ hmv hlen
    have hl : values.length > i := by simpa using hlen
    simp [argsToKwIterAux, hl, hmv]
  | cons a rest ih =>
    intro i last hall hmv hlen
    simp only [List.all_cons, Bool.and_eq_true, Bool.not_eq_true'] at hall
    have hl : values.length > i := by simp at hlen; omega
    have hzip := zip_cons_drop a rest values i (by omega)
    have hrec := ih (i + 1) last hall.2 hmv (by simp at hlen ⊢; omega)
    have harith : i + 1 + rest.length = i + (rest.length + 1) := by omega
    simp [argsToKwIterAux, hl, hall.1, hrec, harith, hzip]

/-- C5: with a bounded `max_args` exceeded, `args_to_kw` raises an
ArgumentError whose message is "takes no arguments" for 0, the singular
"takes at most 1 argument" for 1, and the generic plural form otherwise;
when the final declared arg is multivalue all positional values from its
position onward are bundled as one tuple under its name with no upper
bound; otherwise each positional value is bound to the arg name at its
index in declared order. -/
theorem C5_args_to_kw (c : Command) :
    (∀ (m : Nat) (values : List Value), c.max_args = some m → values.length > m →
      c.args_to_kw values = .error (.argumentError
        (if m = 0 then "takes no arguments"
         else if m = 1 then "takes at most 1 argument"
         else "takes at most " ++ toString c.args.length ++ " arguments"))) ∧
    (∀ (pre : List Param) (last : Param) (values : List Value),
      c.args = pre ++ [last] → last.multivalue = true →
      pre.all (fun a => !a.multivalue) = true → values.length > pre.length →
      c.args_to_kw values = .ok
        (((pre.zip values).map (fun pv => (pv.1.name, pv.2))) ++
          [(last.name, Value.tup (values.drop pre.length))])) ∧
    (∀ (m : Nat) (values : List Value), c.max_args = some m → values.length ≤ m →
      c.args.all (fun a => !a.multivalue) = true →
      c.args_to_kw values = .ok ((c.args.zip values).map (fun pv => (pv.1.name, pv.2)))) := by
  refine ⟨?_, ?_, ?_⟩
  · intro m values hmax hlen
    simp only [Command.args_to_kw, hmax]
    rw [if_pos hlen]
    by_cases hm0 : m = 0 <;> by_cases hm1 : m = 1 <;> simp [hm0, hm1]
  · intro pre last values hargs hmv hall hlen
    have hmax : c.max_args = none := by
      simp [Command.max_args, hargs, List.getLast?_concat, hmv]
    have h := iter_mv_last values pre 0 last hall hmv (by simpa using hlen)
    simpa [Command.args_to_kw, hmax, hargs] using h
  · intro m values hmax hlen hall
    have h := iter_no_mv values c.args 0 hall
    have hnot : ¬(values.length > m) := by omega
    simpa [Command.args_to_kw, hmax, hnot] using h

/-- C5 witness: on a command with `max_args = 1`, two positional values fail
with the singular "takes at most 1 argument" message, and one positional
value is bound to the arg's name. -/
theorem C5_witness :
    c1.args_to_kw [Value.str "x", Value.str "y"] =
      .error (.argumentError "takes at most 1 argument") ∧
    c1.args_to_kw [Value.str "x"] = .ok [("a", Value.str "x")] := by
  constructor
  · have h := (C5_args_to_kw c1).1 1 [Value.str "x", Value.str "y"] rfl (by simp)
    simpa using h
  · have h := (C5_args_to_kw c1).2.2 1 [Value.str "x"] rfl (by simp) rfl
    exact h.trans rfl

/- ------------------------------------------------------------------ -/
/- C7: Method.get_options                                              -/
/- ------------------------------------------------------------------ -/

theorem insertByKey_front {α : Type} (key : α → Nat) (x : α) (l : List α)
    (h : ∀ y ∈ l, key x ≤ key y) : insertByKey key x l = x :: l := by
  cases l with
  | nil => rfl
  | cons y ys => simp [insertByKey, h y (List.mem_cons_self y ys)]

theorem insertByKey_append {α : Type} (key : α → Nat) (x : α) :
    ∀ (l1 l2 : List α), (∀ y ∈ l1, key y < key x) →
      insertByKey key x (l1 ++ l2) = l1 ++ insertByKey key x l2 := by
  intro l1
  induction l1 with
  | nil => intro l2 _; simp
  | cons y ys ih =>
    intro l2 h
    have hy : ¬ key x ≤ key y := by
      have := h y (List.mem_cons_self y ys)
      omega
    simp only [List.cons_append, insertByKey, hy, if_false, List.append_eq]
    rw [ih l2 (fun z hz => h z (List.mem_cons_of_mem y hz))]

theorem propKey_le (pp : PropProxy) : propKey pp ≤ 2 := by
  unfold propKey
  split
  · split
    · omega
    · omega
  · omega

theorem sortByKey_three_tier {α : Type} (key : α → Nat) (hk : ∀ x, key x ≤ 2)
    (l : List α) :
    sortByKey key l =
      l.filter (fun x => key x == 0) ++ l.filter (fun x => key x == 1) ++
        l.filter (fun x => key x == 2) := by
  induction l with
  | nil => rfl
  | cons x xs ih =>
    have hx := hk x
    have h3 : key x = 0 ∨ key x = 1 ∨ key x = 2 := by omega
    have hmem0 : ∀ y ∈ xs.filter (fun z => key z == 0), key y = 0 := by
      intro y hy
      simpa using (List.mem_filter.mp hy).2
    have hmem1 : ∀ y ∈ xs.filter (fun z => key z == 1), key y = 1 := by
      intro y hy
      simpa using (List.mem_filter.mp hy).2
    have hmem2 : ∀ y ∈ xs.filter (fun z => key z == 2), key y = 2 := by
      intro y hy
      simpa using (List.mem_filter.mp hy).2
    rcases h3 with h0 | h1 | h2
    · have hfront : insertByKey key x
          (xs.filter (fun z => key z == 0) ++ (xs.filter (fun z => key z == 1) ++
            xs.filter (fun z => key z == 2))) =
          x :: (xs.filter (fun z => key z == 0) ++ (xs.filter (fun z => key z == 1) ++
            xs.filter (fun z => key z == 2))) := by
        apply insertByKey_front
        intro y _
        omega
      simp [sortByKey, ih, hfront, List.filter_cons, h0]
    · have hskip : insertByKey key x
          (xs.filter (fun z => key z == 0) ++ (xs.filter (fun z => key z == 1) ++
            xs.filter (fun z => key z == 2))) =
          xs.filter (fun z => key z == 0) ++ insertByKey key x
            (xs.filter (fun z => key z == 1) ++ xs.filter (fun z => key z == 2)) := by
        apply insertByKey_append
        intro y hy
        have := hmem0 y hy
        omega
      have hfront : insertByKey key x
          (xs.filter (fun z => key z == 1) ++ xs.filter (fun z => key z == 2)) =
          x :: (xs.filter (fun z => key z == 1) ++ xs.filter (fun z => key z == 2)) := by
        apply insertByKey_front
        intro y hy
        rcases List.mem_append.mp hy with hy1 | hy2
        · have := hmem1 y hy1
          omega
        · have := hmem2 y hy2
          omega
      simp only [sortByKey, ih, List.append_assoc, hskip, hfront, List.filter_cons, h1]
      simp
    · have hskip : insertByKey key x
          ((xs.filter (fun z => key z == 0) ++ xs.filter (fun z => key z == 1)) ++
            xs.filter (fun z => key z == 2)) =
          (xs.filter (fun z => key z == 0) ++ xs.filter (fun z => key z == 1)) ++
            insertByKey key x (xs.filter (fun z => key z == 2)) := by
        apply insertByKey_append
        intro y hy
        rcases List.mem_append.mp hy with hy1 | hy2
        · have := hmem0 y hy1
          omega
        · have := hmem1 y hy2
          omega
      have hfront : insertByKey key x (xs.filter (fun z => key z == 2)) =
          x :: xs.filter (fun z => key z == 2) := by
        apply insertByKey_front
        intro y hy
        have := hmem2 y hy
        omega
      simp only [sortByKey, ih, hskip, hfront, List.filter_cons, h2]
      simp

/-- C7: for a Method linked to its Object, `get_options` yields the Method's
own declared options in declaration order, followed by one synthesized Param
per entry of the Object's Property namespace, with the Properties in tier 0
(required, no derivation rule) first, then tier 1 (required with one), then
tier 2 (not required), ties within a tier keeping the namespace
(registration) order. -/
theorem C7_method_get_options (own : List ParamSpec) (props : List PropProxy) :
    MethodModel.getOptions { takesOptions := own, obj := some { propertyNs := some props } } =
      own ++
        ((props.filter (fun pp => propKey pp == 0) ++
          props.filter (fun pp => propKey pp == 1) ++
          props.filter (fun pp => propKey pp == 2)).map (fun pp => ParamSpec.param pp.param)) := by
  show own ++ (sortByKey propKey props).map (fun pp => ParamSpec.param pp.param) = _
  rw [sortByKey_three_tier propKey propKey_le]

/- ------------------------------------------------------------------ -/
/- C9: Attribute.__init__ name parsing                                 -/
/- ------------------------------------------------------------------ -/

theorem all_takeWhile (p : Char → Bool) : ∀ (l : List Char),
    (l.takeWhile p).all p = true := by
  intro l
  induction l with
  | nil => rfl
  | cons x xs ih =>
    by_cases hx : p x <;> simp [List.takeWhile_cons, hx, ih]

theorem takeWhile_all_append (p : Char → Bool) : ∀ (l : List Char) (c : Char) (r : List Char),
    l.all p = true → p c = false →
    (l ++ c :: r).takeWhile p = l ∧ (l ++ c :: r).dropWhile p = c :: r := by
  intro l
  induction l with
  | nil =>
    intro c r _ hc
    simp [List.takeWhile_cons, List.dropWhile_cons, hc]
  | cons x xs ih =>
    intro c r hall hc
    simp only [List.all_cons, Bool.and_eq_true] at hall
    obtain ⟨h1, h2⟩ := ih c r hall.2 hc
    simp [List.takeWhile_cons, List.dropWhile_cons, hall.1, h1, h2]

theorem attrMatch_iff (cs o a : List Char) :
    attrMatch cs = some (o, a) ↔
      (cs = o ++ '_' :: a ∧ partMatch o = true ∧ partMatch a = true) := by
  constructor
  · intro h
    cases cs with
    | nil => exact nomatch h
    | cons c rest =>
      simp only [attrMatch] at h
      cases hdw : rest.dropWhile isLowerDigit with
      | nil => rw [hdw] at h; exact nomatch h
      | cons d second =>
        rw [hdw] at h
        by_cases hcond : (isLowerAlpha c && !(rest.takeWhile isLowerDigit).isEmpty &&
            decide (d = '_') && partMatch second) = true
        · simp only [hcond, if_true] at h
          obtain ⟨ho, ha⟩ : c :: rest.takeWhile isLowerDigit = o ∧ second = a := by
            constructor
            · exact congrArg Prod.fst (Option.some.inj h)
            · exact congrArg Prod.snd (Option.some.inj h)
          simp only [Bool.and_eq_true, decide_eq_true_eq] at hcond
          obtain ⟨⟨⟨hca, hne⟩, hd⟩, hpm⟩ := hcond
          subst hd
          have hsplit : rest = rest.takeWhile isLowerDigit ++ rest.dropWhile isLowerDigit :=
            (List.takeWhile_append_dropWhile isLowerDigit rest).symm
          refine ⟨?_, ?_, ha ▸ hpm⟩
          · rw [← ho, ← ha]
            simp only [List.cons_append]
            rw [← hdw]
            exact congrArg (c :: ·) hsplit
          · rw [← ho]
            simp only [partMatch, Bool.and_eq_true]
            exact ⟨⟨hca, hne⟩, all_takeWhile isLowerDigit rest⟩
        · simp only [hcond, if_false, Bool.false_eq_true] at h
          exact nomatch h
  · rintro ⟨hcs, hpo, hpa⟩
    cases o with
    | nil => exact nomatch hpo
    | cons oc orest =>
      simp only [partMatch, Bool.and_eq_true] at hpo
      obtain ⟨⟨hca, hne⟩, hall⟩ := hpo
      have hu : isLowerDigit '_' = false := rfl
      have hsplit := takeWhile_all_append isLowerDigit orest '_' a hall hu
      subst hcs
      have hemp : orest.isEmpty = false := by
        simpa using hne
      simp [attrMatch, hsplit.1, hsplit.2, hca, hpa, hemp]

/-- C9: Attribute construction parses the declared class name into
`(obj_name, attr_name)` by the fixed convention `objname_attrname` — each
part a lowercase letter followed by at least one lowercase letter or digit —
returning exactly the two parts for a matching name; any non-matching name
is the fatal construction-time assertion failure (no parse). -/
theorem C9_attribute_name (name : String) :
    (∀ o a : String, attrInit name = some (o, a) ↔
      (name = o ++ "_" ++ a ∧ partMatch o.toList = true ∧ partMatch a.toList = true)) ∧
    (attrInit name = none ↔
      ¬∃ o a : String, name = o ++ "_" ++ a ∧ partMatch o.toList = true ∧
        partMatch a.toList = true) := by
  have hdata : ∀ (o a : String), (o ++ "_" ++ a).toList = o.toList ++ '_' :: a.toList := by
    intro o a
    show (o ++ "_" ++ a).data = o.data ++ '_' :: a.data
    simp [String.data_append]
  have hlist : ∀ (s t : String), s = t ↔ s.toList = t.toList := by
    intro s t
    constructor
    · intro h; rw [h]
    · intro h
      cases s with
      | mk d1 =>
        cases t with
        | mk d2 => exact congrArg String.mk h
  have hmain : ∀ o a : String, attrInit name = some (o, a) ↔
      (name = o ++ "_" ++ a ∧ partMatch o.toList = true ∧ partMatch a.toList = true) := by
    intro o a
    unfold attrInit
    constructor
    · intro h
      cases hm : attrMatch name.toList with
      | none => rw [hm] at h; exact nomatch h
      | some pair =>
        rw [hm] at h
        obtain ⟨ol, al⟩ := pair
        obtain ⟨ho, ha⟩ := Prod.mk.injEq .. ▸ (Option.some.inj h)
        obtain ⟨hname, hpo, hpa⟩ := (attrMatch_iff name.toList ol al).mp hm
        have holist : o.toList = ol := by rw [← ho]; rfl
        have halist : a.toList = al := by rw [← ha]; rfl
        refine ⟨?_, by rw [holist]; exact hpo, by rw [halist]; exact hpa⟩
        rw [hlist name (o ++ "_" ++ a), hdata o a, holist, halist]
        exact hname
    · rintro ⟨hname, hpo, hpa⟩
      have hname' : name.toList = o.toList ++ '_' :: a.toList := by
        rw [← hdata o a]
        exact (hlist name (o ++ "_" ++ a)).mp hname
      have hm := (attrMatch_iff name.toList o.toList a.toList).mpr ⟨hname', hpo, hpa⟩
      have ho : String.mk o.toList = o := by cases o; rfl
      have ha : String.mk a.toList = a := by cases a; rfl
      have hm2 : attrMatch name.data = some (o.toList, a.toList) := hm
      simp [hm2, ho, ha]
  refine ⟨hmain, ?_⟩
  constructor
  · rintro hnone ⟨o, a, hdec⟩
    have := (hmain o a).mpr ⟨hdec.1, hdec.2.1, hdec.2.2⟩
    rw [hnone] at this
    exact nomatch this
  · intro hno
    cases hm : attrInit name with
    | none => rfl
    | some pair =>
      obtain ⟨o, a⟩ := pair
      obtain ⟨h1, h2, h3⟩ := (hmain o a).mp hm
      exact absurd ⟨o, a, h1, h2, h3⟩ hno

/- ------------------------------------------------------------------ -/
/- C10: Command.__call__ positional completeness                       -/
/- ------------------------------------------------------------------ -/

theorem lookupKw_append (l1 l2 : List (String × Value)) (k : String) :
    lookupKw (l1 ++ l2) k =
      if hasKey l1 k then lookupKw l1 k else lookupKw l2 k := by
  induction l1 with
  | nil => simp [lookupKw, hasKey]
  | cons kv rest ih =>
    obtain ⟨k1, v1⟩ := kv
    by_cases hk : k1 = k
    · simp [lookupKw, hasKey, hk]
    · simp [lookupKw, hasKey, hk, ih]

theorem lookupKw_map_override (kw upd : List (String × Value)) (k : String) :
    lookupKw (kw.map (fun kv => (kv.1, (lookupKw upd kv.1).getD kv.2))) k =
      (lookupKw kw k).map (fun v => (lookupKw upd k).getD v) := by
  induction kw with
  | nil => simp [lookupKw]
  | cons kv rest ih =>
    obtain ⟨k1, v1⟩ := kv
    by_cases hk : k1 = k
    · subst hk
      simp [lookupKw]
    · simp [lookupKw, hk, ih]

theorem lookupKw_filter_notin (upd kw : List (String × Value)) (k : String)
    (h : hasKey kw k = false) :
    lookupKw (upd.filter (fun kv => !(hasKey kw kv.1))) k = lookupKw upd k := by
  induction upd with
  | nil => simp
  | cons kv rest ih =>
    obtain ⟨k1, v1⟩ := kv
    by_cases hk : k1 = k
    · subst hk
      simp [List.filter_cons, h, lookupKw]
    · cases hkeep : hasKey kw k1 with
      | true => simp [List.filter_cons, hkeep, lookupKw, hk, ih]
      | false => simp [List.filter_cons, hkeep, lookupKw, hk, ih]

theorem lookupKw_removeKey_ne (kw : List (String × Value)) (k k' : String)
    (h : k' ≠ k) : lookupKw (removeKey kw k) k' = lookupKw kw k' := by
  induction kw with
  | nil => simp [removeKey]
  | cons kv rest ih =>
    obtain ⟨k1, v1⟩ := kv
    by_cases hk : k1 = k
    · subst hk
      have hne : ¬ k1 = k' := fun he => h he.symm
      simp [removeKey, lookupKw, hne, ih]
    · by_cases hk' : k1 = k'
      · subst hk'
        simp [removeKey, hk, lookupKw]
      · simp [removeKey, hk, lookupKw, hk', ih]

theorem hasKey_of_mem_fst : ∀ (kw : List (String × Value)) (k : String),
    k ∈ kw.map Prod.fst → hasKey kw k = true := by
  intro kw
  induction kw with
  | nil => intro k h; exact nomatch h
  | cons kv rest ih =>
    intro k h
    obtain ⟨k1, v1⟩ := kv
    by_cases hk : k1 = k
    · simp [hasKey, lookupKw, hk]
    · simp only [List.map_cons, List.mem_cons] at h
      rcases h with h | h
      · exact absurd h.symm hk
      · simpa [hasKey, lookupKw, hk] using ih k h

/-- The lookup behaviour of Python `dict.update`: present keys take the
update's value when it has one, absent keys fall through to the update. -/
theorem lookupKw_dictUpdate (kw upd : List (String × Value)) (k : String) :
    lookupKw (dictUpdate kw upd) k =
      match lookupKw kw k with
      | some v => some ((lookupKw upd k).getD v)
      | none => lookupKw upd k := by
  cases hl : lookupKw kw k with
  | some v =>
    simp [dictUpdate, lookupKw_append, lookupKw_map_override, hasKey, hl]
  | none =>
    have hkey : hasKey kw k = false := by simp [hasKey, hl]
    have hfeq : upd.filter (fun kv => (lookupKw kw kv.1).isNone) =
        upd.filter (fun kv => !(hasKey kw kv.1)) := by
      apply List.filter_congr
      intro x _
      cases hc : lookupKw kw x.1 <;> simp [hasKey, hc]
    simp [dictUpdate, lookupKw_append, lookupKw_map_override, hasKey, hl]
    rw [hfeq]
    exact lookupKw_filter_notin upd kw k hkey

theorem mapM_defaults (kw : List (String × Value)) :
    ∀ (l : List Param) (defs : List (String × Value)),
      (l.mapM (fun p =>
        match p.get_default kw with
        | .error e => Except.error e
        | .ok d => Except.ok (p.name, d)) = .ok defs) →
      defs.map Prod.fst = l.map (fun p => p.name) ∧
      ((l.map (fun p => p.name)).Nodup →
        ∀ p ∈ l, ∃ d, p.get_default kw = .ok d ∧ lookupKw defs p.name = some d) := by
  intro l
  induction l with
  | nil =>
    intro defs h
    simp only [List.mapM_nil, exceptPure_eq] at h
    obtain rfl := (Except.ok.inj h).symm
    exact ⟨rfl, fun _ p hp => nomatch hp⟩
  | cons q qs ih =>
    intro defs h
    rw [List.mapM_cons] at h
    cases hq : q.get_default kw with
    | error e => rw [hq] at h; exact nomatch h
    | ok dq =>
      rw [hq] at h
      simp only [exceptBind_ok] at h
      cases hrest : qs.mapM (fun p =>
          match p.get_default kw with
          | .error e => Except.error e
          | .ok d => Except.ok (p.name, d)) with
      | error e => rw [hrest] at h; exact nomatch h
      | ok defs' =>
        rw [hrest] at h
        simp only [exceptBind_ok, exceptPure_eq] at h
        obtain rfl := (Except.ok.inj h).symm
        obtain ⟨ihfst, ihlook⟩ := ih defs' hrest
        constructor
        · simp [ihfst]
        · intro hnd p hp
          rw [List.map_cons, List.nodup_cons] at hnd
          rcases List.mem_cons.mp hp with rfl | hp'
          · exact ⟨dq, hq, by simp [lookupKw]⟩
          · have hne : q.name ≠ p.name := by
              intro he
              exact hnd.1 (he ▸ List.mem_map.mpr ⟨p, hp', rfl⟩)
            obtain ⟨d, hd, hl⟩ := ihlook hnd.2 p hp'
            exact ⟨d, hd, by simp [lookupKw, hne, hl]⟩

theorem popArgs_ok : ∀ (names : List String) (kw : List (String × Value)),
    names.Nodup → (∀ n ∈ names, hasKey kw n = true) →
    ∃ rest, popArgs names kw =
      .ok (names.map (fun n => (lookupKw kw n).getD Value.vnone), rest) := by
  intro names
  induction names with
  | nil => intro kw _ _; exact ⟨kw, rfl⟩
  | cons n ns ih =>
    intro kw hnd hall
    rw [List.nodup_cons] at hnd
    have hkn : hasKey kw n = true := hall n (List.mem_cons_self n ns)
    obtain ⟨v, hv⟩ := Option.isSome_iff_exists.mp hkn
    have hall' : ∀ m ∈ ns, hasKey (removeKey kw n) m = true := by
      intro m hm
      have hmn : m ≠ n := fun he => hnd.1 (he ▸ hm)
      rw [hasKey, lookupKw_removeKey_ne kw n m hmn]
      exact hall m (List.mem_cons_of_mem n hm)
    obtain ⟨rest, hrest⟩ := ih (removeKey kw n) hnd.2 hall'
    refine ⟨rest, ?_⟩
    have hmaps : ns.map (fun m => (lookupKw (removeKey kw n) m).getD Value.vnone) =
        ns.map (fun m => (lookupKw kw m).getD Value.vnone) := by
      apply List.map_congr_left
      intro m hm
      rw [lookupKw_removeKey_ne kw n m (fun he => hnd.1 (he ▸ hm))]
    simp [popArgs, hv, hrest, hmaps]

theorem hasKey_dictUpdate_defaults (c : Command) (kw defs : List (String × Value))
    (h2 : c.getDefaultPairs kw = .ok defs) :
    ∀ p ∈ c.params, hasKey (dictUpdate kw defs) p.name = true := by
  intro p hp
  have hfst := (mapM_defaults kw (c.params.filter (fun p => !(hasKey kw p.name))) defs h2).1
  rw [hasKey, lookupKw_dictUpdate]
  cases hl : lookupKw kw p.name with
  | some v => simp
  | none =>
    have hkey : hasKey kw p.name = false := by simp [hasKey, hl]
    have hmemf : p ∈ c.params.filter (fun p => !(hasKey kw p.name)) :=
      List.mem_filter.mpr ⟨hp, by simp [hkey]⟩
    have hmemd : p.name ∈ defs.map Prod.fst := by
      rw [hfst]
      exact List.mem_map.mpr ⟨p, hmemf, rfl⟩
    exact hasKey_of_mem_fst defs p.name hmemd

/-- C10: for a finalized Command (distinct param names) whose call reaches
and passes validation, default-filling covers every declared param name, the
positional split never misses a key, and the tuple handed to the execution
strategy has exactly one entry per declared arg in declared order — an
omitted optional arg with no default reaching its slot as none. -/
theorem C10_call_positional (c : Command) (pos : List Value)
    (kw0 kw1 defs : List (String × Value))
    (hnd : (c.params.map (fun p => p.name)).Nodup)
    (h1 : c.preDefault pos kw0 = .ok kw1)
    (h2 : c.getDefaultPairs kw1 = .ok defs)
    (h3 : c.validateKw (dictUpdate kw1 defs) = .ok ()) :
    (∀ p ∈ c.params, hasKey (dictUpdate kw1 defs) p.name = true) ∧
    (∃ rest, c.call pos kw0 = .ok
      (c.args.map (fun a => (lookupKw (dictUpdate kw1 defs) a.name).getD Value.vnone),
        rest)) ∧
    (∀ a ∈ c.args, hasKey kw1 a.name = false → a.default_from = none →
      a.default = Value.vnone →
      lookupKw (dictUpdate kw1 defs) a.name = some Value.vnone) := by
  have hcover := hasKey_dictUpdate_defaults c kw1 defs h2
  have hargnd : (c.args.map (fun p => p.name)).Nodup := by
    have : c.params.map (fun p => p.name) =
        c.args.map (fun p => p.name) ++ c.options.map (fun p => p.name) := by
      simp [Command.params]
    rw [this] at hnd
    exact (List.nodup_append.mp hnd).1
  refine ⟨hcover, ?_, ?_⟩
  · have hall : ∀ n ∈ c.args.map (fun p => p.name),
        hasKey (dictUpdate kw1 defs) n = true := by
      intro n hn
      obtain ⟨a, ha, rfl⟩ := List.mem_map.mp hn
      exact hcover a (by rw [Command.params]; exact List.mem_append_left _ ha)
    obtain ⟨rest, hrest⟩ := popArgs_ok (c.args.map (fun p => p.name))
      (dictUpdate kw1 defs) hargnd hall
    refine ⟨rest, ?_⟩
    simp only [Command.call, h1, h2, h3, hrest, List.map_map]
    rfl
  · intro a ha hk hdf hdef
    have hgd : a.get_default kw1 = .ok Value.vnone := by
      rw [Param.get_default, hdf, hdef]
    have hpmem : a ∈ c.params := by
      rw [Command.params]
      exact List.mem_append_left _ ha
    have hmemf : a ∈ c.params.filter (fun p => !(hasKey kw1 p.name)) :=
      List.mem_filter.mpr ⟨hpmem, by simp [hk]⟩
    have hfnd : ((c.params.filter (fun p => !(hasKey kw1 p.name))).map
        (fun p => p.name)).Nodup := by
      have hsub : (c.params.filter (fun p => !(hasKey kw1 p.name))).Sublist c.params :=
        List.filter_sublist c.params
      exact (hsub.map (fun p => p.name)).nodup hnd
    obtain ⟨d, hd, hl⟩ := (mapM_defaults kw1
      (c.params.filter (fun p => !(hasKey kw1 p.name))) defs h2).2 hfnd a hmemf
    rw [hgd] at hd
    obtain rfl := Except.ok.inj hd
    have hnone : lookupKw kw1 a.name = none := by
      cases hl' : lookupKw kw1 a.name with
      | none => rfl
      | some v => rw [hasKey, hl'] at hk; exact nomatch hk
    rw [lookupKw_dictUpdate, hnone]
    exact hl

/-- C10 witness: calling the one-optional-arg command with nothing at all
passes validation and hands the strategy exactly one positional slot holding
none. -/
theorem C10_witness :
    ∃ rest, c2.call [] [] = .ok ([Value.vnone], rest) := by
  have h := C10_call_positional c2 [] [] [] [("a", Value.vnone)]
    (by decide) rfl rfl rfl
  obtain ⟨rest, hrest⟩ := h.2.1
  exact ⟨rest, hrest⟩

end Ipa
